import Mathlib

/-!
Verification development for the A/B testing engine
(app/services/analytics/ab_testing.py and app/models/experiments.py).

Numbers that the Python code holds as floats are modelled as exact
rationals where only field arithmetic occurs (store rows, allocations)
and as real numbers where the statistics pipeline needs sqrt and erf.
Timestamps are opaque naturals, ids opaque strings.
-/

set_option maxHeartbeats 1000000
set_option maxRecDepth 4000

namespace ABTesting

/-! ## Participant store model

The analytics.experiment_participants table is modelled as a list of
rows; SQL statements from the service become functions on that list. -/

/-- A persisted row of analytics.experiment_participants. -/
structure StoredRow where
  id : String
  experiment_id : String
  user_id : Option String
  customer_id : Option String
  session_id : Option String
  variant_name : String
  assigned_at : Nat
  converted_at : Option Nat
  conversion_value : Option ℚ
  deriving Repr, DecidableEq

/-- Input payload of record_assignment (model ParticipantAssignment). -/
structure ParticipantAssignment where
  experiment_id : String
  variant_name : String
  user_id : Option String
  customer_id : Option String
  session_id : Option String
  assigned_at : Nat
  deriving Repr, DecidableEq

/-- Input payload of record_conversion (model ConversionUpdate). -/
structure ConversionUpdate where
  participant_id : String
  converted_at : Nat
  conversion_value : Option ℚ
  deriving Repr, DecidableEq

/-- Failure taxonomy surfaced by the service layer. -/
inductive ServiceFailure where
  | notFoundError
  deriving Repr, DecidableEq

/-- Modelled from the spec: the unique_participant constraint on
analytics.experiment_participants is declared in a database migration that
is not part of src/; per the spec the constraint keys a row by
experiment_id together with the participant identity
(user_id, customer_id, session_id). -/
def rowKey (r : StoredRow) : String × Option String × Option String × Option String :=
  (r.experiment_id, r.user_id, r.customer_id, r.session_id)

/-- Modelled from the spec: the conflict key of the upsert in
record_assignment, matching rowKey on the inserted values. -/
def assignKey (a : ParticipantAssignment) :
    String × Option String × Option String × Option String :=
  (a.experiment_id, a.user_id, a.customer_id, a.session_id)

/-- INSERT ... ON CONFLICT ON CONSTRAINT unique_participant DO UPDATE SET
variant_name, assigned_at ... RETURNING, from record_assignment.  A fresh
uuid for the inserted row is passed in as newId.  Returns the new table
and the RETURNING row. -/
def record_assignment (tbl : List StoredRow) (newId : String)
    (a : ParticipantAssignment) : List StoredRow × StoredRow :=
  match tbl.find? (fun row => decide (rowKey row = assignKey a)) with
  | some r =>
      let upd : StoredRow :=
        { r with variant_name := a.variant_name, assigned_at := a.assigned_at }
      (tbl.map (fun row => if rowKey row = assignKey a then upd else row), upd)
  | none =>
      let fresh : StoredRow :=
        { id := newId
          experiment_id := a.experiment_id
          user_id := a.user_id
          customer_id := a.customer_id
          session_id := a.session_id
          variant_name := a.variant_name
          assigned_at := a.assigned_at
          converted_at := none
          conversion_value := none }
      (tbl ++ [fresh], fresh)

/-- UPDATE analytics.experiment_participants SET converted_at,
conversion_value WHERE id = :participant_id RETURNING, from
record_conversion; the result.one() call on an empty RETURNING set is the
NotFound failure of the spec taxonomy. -/
def record_conversion (tbl : List StoredRow) (u : ConversionUpdate) :
    Except ServiceFailure (List StoredRow × StoredRow) :=
  match tbl.find? (fun row => decide (row.id = u.participant_id)) with
  | none => .error ServiceFailure.notFoundError
  | some r =>
      let upd : StoredRow :=
        { r with converted_at := some u.converted_at
                 conversion_value := u.conversion_value }
      .ok (tbl.map (fun row => if row.id = u.participant_id then upd else row), upd)

/-! ## Pydantic model validation (app/models/experiments.py) -/

/-- Lifecycle states for experiments. -/
inductive ExperimentStatus where
  | draft
  | running
  | paused
  | completed
  | archived
  deriving Repr, DecidableEq

/-- Configuration for a single experiment variant.  Field constraints of
the pydantic model: key and name nonempty, allocation in (0, 1]. -/
structure ExperimentVariant where
  key : String
  name : String
  allocation : ℚ
  description : Option String
  metadata : List (String × String)
  deriving Repr, DecidableEq

/-- Metric definition tracked during the experiment.  Field constraints:
name nonempty, weight > 0. -/
structure ExperimentSuccessMetric where
  name : String
  goal : String
  target : Option ℚ
  weight : ℚ
  deriving Repr, DecidableEq

/-- Payload required to create or update an experiment. -/
structure ExperimentDefinition where
  tenant_id : String
  name : String
  description : Option String
  hypothesis : Option String
  variants : List ExperimentVariant
  success_metrics : List ExperimentSuccessMetric
  status : ExperimentStatus
  created_by : String
  deriving Repr, DecidableEq

/-- Field-level pydantic constraints of ExperimentVariant. -/
def variantFieldsOk (v : ExperimentVariant) : Prop :=
  v.key ≠ "" ∧ v.name ≠ "" ∧ 0 < v.allocation ∧ v.allocation ≤ 1

instance (v : ExperimentVariant) : Decidable (variantFieldsOk v) := by
  unfold variantFieldsOk; infer_instance

/-- Field-level pydantic constraints of ExperimentSuccessMetric. -/
def metricFieldsOk (m : ExperimentSuccessMetric) : Prop :=
  m.name ≠ "" ∧ 0 < m.weight

instance (m : ExperimentSuccessMetric) : Decidable (metricFieldsOk m) := by
  unfold metricFieldsOk; infer_instance

/-- Pydantic validation of ExperimentDefinition: string and list field
constraints, then the validate_allocation model validator, which rejects
when the allocation total is farther than 0.01 from 1. -/
def validateDefinition (d : ExperimentDefinition) :
    Except String ExperimentDefinition :=
  if d.tenant_id = "" then .error "tenant_id must be nonempty"
  else if d.name = "" then .error "name must be nonempty"
  else if ¬ (∀ v ∈ d.variants, variantFieldsOk v) then
    .error "variant fields invalid"
  else if ¬ (∀ m ∈ d.success_metrics, metricFieldsOk m) then
    .error "success metric fields invalid"
  else if d.variants.length < 2 then .error "variants must have at least 2 items"
  else if d.success_metrics.length < 1 then
    .error "success_metrics must have at least 1 item"
  else if d.created_by = "" then .error "created_by must be nonempty"
  else if 1 / 100 < |((d.variants.map (fun v => v.allocation)).sum) - 1| then
    .error "Variant allocations must sum to approximately 1.0"
  else .ok d

/-- Python truthiness of an optional string: None and the empty string
are falsy. -/
def optStrTruthy : Option String → Bool
  | none => false
  | some s => s ≠ ""

/-- The validate_identity model validator of ParticipantAssignment:
raises unless user_id or customer_id or session_id is truthy. -/
def validate_identity (a : ParticipantAssignment) :
    Except String ParticipantAssignment :=
  if optStrTruthy a.user_id ∨ optStrTruthy a.customer_id ∨
      optStrTruthy a.session_id then
    .ok a
  else
    .error "At least one participant identifier must be provided"

/-! ## Statistics pipeline (get_experiment_detail and helpers)

Float arithmetic is modelled over the real numbers; the Python
float("inf") that can appear as a lift is modelled by the top element of
the extended reals, so lift values live in Option EReal. -/

/-- One row of the per-variant aggregation query of
get_experiment_detail (variant_name, participants, conversions,
total_value). -/
structure ParticipantRow where
  variant_name : String
  participants : Nat
  conversions : Nat
  total_value : ℝ

/-- Internal representation of variant metrics (dataclass
_VariantAggregate). -/
structure VariantAggregate where
  name : String
  participants : Nat
  conversions : Nat
  total_value : ℝ

/-- Property conversion_rate of _VariantAggregate: conversions over
participants, 0 when participants is falsy (zero). -/
noncomputable def VariantAggregate.conversion_rate (a : VariantAggregate) : ℝ :=
  if a.participants = 0 then 0 else (a.conversions : ℝ) / (a.participants : ℝ)

/-- Property average_value of _VariantAggregate: total value over
conversions, 0 when conversions is falsy (zero). -/
noncomputable def VariantAggregate.average_value (a : VariantAggregate) : ℝ :=
  if a.conversions = 0 then 0 else a.total_value / (a.conversions : ℝ)

/-- Aggregated performance metrics for a variant (model VariantResult). -/
structure VariantResult where
  name : String
  participants : Nat
  conversions : Nat
  conversion_rate : ℝ
  total_conversion_value : ℝ
  avg_conversion_value : ℝ
  lift : Option EReal

/-- Pairwise comparison between baseline and another variant (model
VariantComparison). -/
structure VariantComparison where
  baseline : String
  variant : String
  lift : Option EReal
  p_value : Option ℝ
  confidence : Option ℝ
  is_significant : Bool

/-- Computed experiment analytics (model ExperimentResults). -/
structure ExperimentResults where
  baseline_variant : String
  variants : List VariantResult
  comparisons : List VariantComparison
  suggested_winner : Option String
  overall_confidence : Option ℝ

/-- The aggregates dict of _build_variant_results seeded with a default
aggregate per defined variant name. -/
noncomputable def initAggregates (variants : List ExperimentVariant) :
    String → Option VariantAggregate :=
  fun n =>
    if n ∈ variants.map (fun v => v.name) then some ⟨n, 0, 0, 0⟩ else none

/-- Processing of one participant row in _build_variant_results: the
entry for the row's variant_name is created if absent and its fields are
set to the row's values either way. -/
noncomputable def applyRow (m : String → Option VariantAggregate)
    (row : ParticipantRow) : String → Option VariantAggregate :=
  fun n =>
    if n = row.variant_name then
      some ⟨row.variant_name, row.participants, row.conversions, row.total_value⟩
    else m n

/-- The aggregates dict after the row loop of _build_variant_results. -/
noncomputable def aggregateRows (variants : List ExperimentVariant)
    (rows : List ParticipantRow) : String → Option VariantAggregate :=
  rows.foldl applyRow (initAggregates variants)

/-- A VariantResult as first constructed in _build_variant_results (lift
is patched afterwards). -/
noncomputable def mkVariantResult (a : VariantAggregate) : VariantResult :=
  { name := a.name
    participants := a.participants
    conversions := a.conversions
    conversion_rate := a.conversion_rate
    total_conversion_value := a.total_value
    avg_conversion_value := a.average_value
    lift := none }

/-- The ordered_results list of _build_variant_results before the lift
loop: one result per defined variant, in definition order.  The dict
lookup always succeeds because initAggregates seeds every variant name
and applyRow never removes an entry; getD supplies an irrelevant default
for that impossible branch. -/
noncomputable def orderedResults (variants : List ExperimentVariant)
    (rows : List ParticipantRow) : List VariantResult :=
  variants.map (fun v =>
    mkVariantResult ((aggregateRows variants rows v.name).getD ⟨v.name, 0, 0, 0⟩))

/-- The lift loop of _build_variant_results: the baseline rate is the
first result's conversion rate and a result whose name equals the first
result's name keeps lift None. -/
noncomputable def assignLifts (results : List VariantResult) : List VariantResult :=
  match results with
  | [] => []
  | r0 :: rest =>
      (r0 :: rest).map (fun r =>
        if r.name = r0.name then { r with lift := none }
        else if 0 < r0.conversion_rate then
          { r with lift := some (((r.conversion_rate - r0.conversion_rate) / r0.conversion_rate : ℝ) : EReal) }
        else if 0 < r.conversion_rate then { r with lift := some ⊤ }
        else { r with lift := some ((0 : ℝ) : EReal) })

/-- _build_variant_results: aggregation followed by the lift loop. -/
noncomputable def build_variant_results (variants : List ExperimentVariant)
    (rows : List ParticipantRow) : List VariantResult :=
  assignLifts (orderedResults variants rows)

/-- The Gauss error function, as used by math.erf. -/
noncomputable def erf (x : ℝ) : ℝ :=
  (2 / Real.sqrt Real.pi) * ∫ t in (0:ℝ)..x, Real.exp (-(t ^ 2))

/-- _normal_cdf: standard normal CDF via erf. -/
noncomputable def normal_cdf (x : ℝ) : ℝ :=
  0.5 * (1 + erf (x / Real.sqrt 2))

/-- _proportion_z_test: two-proportion z-test returning an optional
two-tailed p-value clamped to the unit interval. -/
noncomputable def proportion_z_test (pa ca pb cb : ℕ) : Option ℝ :=
  if pa = 0 ∨ pb = 0 then none
  else
    let p_a : ℝ := (ca : ℝ) / (pa : ℝ)
    let p_b : ℝ := (cb : ℝ) / (pb : ℝ)
    let pooled : ℝ := ((ca : ℝ) + (cb : ℝ)) / ((pa : ℝ) + (pb : ℝ))
    if pooled = 0 ∨ pooled = 1 then none
    else
      let std_error : ℝ :=
        Real.sqrt (pooled * (1 - pooled) * (1 / (pa : ℝ) + 1 / (pb : ℝ)))
      if std_error = 0 then none
      else
        let z : ℝ := (p_a - p_b) / std_error
        some (max (min (2 * (1 - normal_cdf |z|)) 1) 0)

/-- One comparison row of _build_comparisons.  The Python truthiness in
bool(confidence and confidence >= 0.95) makes a zero confidence
non-significant before the threshold test. -/
noncomputable def mkComparison (baseline v : VariantResult) : VariantComparison :=
  let p_value :=
    proportion_z_test baseline.participants baseline.conversions
      v.participants v.conversions
  let confidence := p_value.map (fun p => 1 - p)
  let is_significant : Bool :=
    match confidence with
    | none => false
    | some c => if c = 0 then false else if 0.95 ≤ c then true else false
  { baseline := baseline.name
    variant := v.name
    lift := v.lift
    p_value := p_value
    confidence := confidence
    is_significant := is_significant }

/-- _build_comparisons: each non-baseline result is compared against the
first result. -/
noncomputable def build_comparisons (results : List VariantResult) :
    List VariantComparison :=
  match results with
  | [] => []
  | baseline :: rest => rest.map (fun v => mkComparison baseline v)

/-- The generator filter of suggested_winner:
cmp.is_significant and cmp.lift and cmp.lift > 0, with Python truthiness
on the optional lift (None and zero are falsy). -/
noncomputable def winnerCond (c : VariantComparison) : Bool :=
  c.is_significant &&
    (match c.lift with
      | none => false
      | some x => if x = 0 then false else if 0 < x then true else false)

/-- The overall_confidence computation of get_experiment_detail:
max of confidence-or-zero over the comparisons (None on an empty
sequence), then collapsed to None when the maximum equals zero. -/
noncomputable def overallConfidence (cmps : List VariantComparison) : Option ℝ :=
  match cmps with
  | [] => none
  | c :: cs =>
      let m := (cs.map (fun x => x.confidence.getD 0)).foldl max (c.confidence.getD 0)
      if m = 0 then none else some m

/-- The results-assembly part of get_experiment_detail, from the defined
variants and the fetched per-variant aggregate rows.  When both the
variant list and the result list are empty the source raises IndexError
on experiment.variants[0]; the model returns an empty baseline name in
that branch, which no claim touches. -/
noncomputable def getDetailResults (variants : List ExperimentVariant)
    (rows : List ParticipantRow) : ExperimentResults :=
  let variant_results := build_variant_results variants rows
  let comparisons := build_comparisons variant_results
  let baseline :=
    match variant_results with
    | r :: _ => r.name
    | [] => ((variants.head?.map (fun v => v.name)).getD "")
  let suggested := (comparisons.find? winnerCond).map (fun c => c.variant)
  { baseline_variant := baseline
    variants := variant_results
    comparisons := comparisons
    suggested_winner := suggested
    overall_confidence := overallConfidence comparisons }

/-! ## List helper lemmas for keyed replacement -/

section ListHelpers

variable {α : Type} (P : α → Prop) [DecidablePred P]

theorem find?_decide_eq_head?_filter (l : List α) :
    l.find? (fun x => decide (P x)) = (l.filter (fun x => decide (P x))).head? := by
  induction l with
  | nil => rfl
  | cons x xs ih =>
      cases hd : decide (P x)
      · rw [List.find?_cons, List.filter_cons, hd]
        exact ih
      · rw [List.find?_cons, List.filter_cons, hd]
        rfl

theorem map_id_of_filter_nil (f : α → α) (hf : ∀ x, ¬ P x → f x = x)
    (l : List α) (h : l.filter (fun x => decide (P x)) = []) : l.map f = l := by
  induction l with
  | nil => rfl
  | cons x xs ih =>
      rw [List.filter_cons] at h
      by_cases hx : P x
      · simp [hx] at h
      · simp only [hx, decide_eq_true_eq, if_neg hx] at h
        simp [hf x hx, ih h]

theorem filter_map_replace (u r : α) (hu : P u) (l : List α)
    (h : l.filter (fun x => decide (P x)) = [r]) :
    (l.map (fun x => if P x then u else x)).filter (fun x => decide (P x)) = [u] := by
  induction l with
  | nil => simp at h
  | cons x xs ih =>
      by_cases hx : P x
      · have h2 : x :: xs.filter (fun x => decide (P x)) = [r] := by
          simpa [List.filter_cons, hx] using h
        have htail : xs.filter (fun x => decide (P x)) = [] :=
          (List.cons_eq_cons.mp h2).2
        have hmap : xs.map (fun x => if P x then u else x) = xs :=
          map_id_of_filter_nil P _ (fun y hy => if_neg hy) xs htail
        simp [List.filter_cons, hx, hu, hmap, htail]
      · have h2 : xs.filter (fun x => decide (P x)) = [r] := by
          simpa [List.filter_cons, hx] using h
        simpa [List.filter_cons, hx] using ih h2

theorem filter_not_map_replace (u : α) (hu : P u) (l : List α) :
    (l.map (fun x => if P x then u else x)).filter (fun x => !decide (P x)) =
      l.filter (fun x => !decide (P x)) := by
  induction l with
  | nil => rfl
  | cons x xs ih =>
      by_cases hx : P x
      · simp [List.filter_cons, hx, hu, ih]
      · simp [List.filter_cons, hx, ih]

end ListHelpers

/-! ## Claims C6 and C7: assignment upsert and conversion update -/

/-- C6: an assignment upsert that hits an existing row for the same
(experiment_id, identity) key leaves exactly one stored row for that key,
with variant_name and assigned_at overwritten by the new values while the
row's id, converted_at and conversion_value are unchanged, returns that
row, leaves every other row untouched and does not change the table
size. -/
theorem record_assignment_upsert
    (tbl : List StoredRow) (newId : String) (a : ParticipantAssignment)
    (r : StoredRow)
    (h : tbl.filter (fun row => decide (rowKey row = assignKey a)) = [r]) :
    (record_assignment tbl newId a).2 =
      { r with variant_name := a.variant_name, assigned_at := a.assigned_at } ∧
    (record_assignment tbl newId a).2.id = r.id ∧
    (record_assignment tbl newId a).2.converted_at = r.converted_at ∧
    (record_assignment tbl newId a).2.conversion_value = r.conversion_value ∧
    (record_assignment tbl newId a).2.variant_name = a.variant_name ∧
    (record_assignment tbl newId a).2.assigned_at = a.assigned_at ∧
    (record_assignment tbl newId a).1.filter
        (fun row => decide (rowKey row = assignKey a)) =
      [{ r with variant_name := a.variant_name, assigned_at := a.assigned_at }] ∧
    (record_assignment tbl newId a).1.filter
        (fun row => !decide (rowKey row = assignKey a)) =
      tbl.filter (fun row => !decide (rowKey row = assignKey a)) ∧
    (record_assignment tbl newId a).1.length = tbl.length := by
  have hfind : tbl.find? (fun row => decide (rowKey row = assignKey a)) = some r := by
    rw [find?_decide_eq_head?_filter (fun row => rowKey row = assignKey a), h]
    rfl
  have hrmem : r ∈ tbl.filter (fun row => decide (rowKey row = assignKey a)) := by
    rw [h]; exact List.mem_singleton.mpr rfl
  have hr : rowKey r = assignKey a := by
    simpa using (List.mem_filter.mp hrmem).2
  have hu : rowKey { r with variant_name := a.variant_name, assigned_at := a.assigned_at } = assignKey a := hr
  have hmain : record_assignment tbl newId a =
      (tbl.map (fun row => if rowKey row = assignKey a then { r with variant_name := a.variant_name, assigned_at := a.assigned_at } else row),
       { r with variant_name := a.variant_name, assigned_at := a.assigned_at }) := by
    simp only [record_assignment, hfind]
  rw [hmain]
  refine ⟨rfl, rfl, rfl, rfl, rfl, rfl, ?_, ?_, by simp⟩
  · exact filter_map_replace (fun row : StoredRow => rowKey row = assignKey a) _ r hu tbl h
  · exact filter_not_map_replace (fun row : StoredRow => rowKey row = assignKey a) _ hu tbl

/-- Witness for C6 on a concrete one-row table. -/
theorem record_assignment_upsert_witness :
    (record_assignment
        [⟨"p1", "e1", some "u1", none, none, "control", 1, some 5, some 10⟩]
        "p2" ⟨"e1", "treat", some "u1", none, none, 2⟩).2 =
      ⟨"p1", "e1", some "u1", none, none, "treat", 2, some 5, some 10⟩ ∧
    (record_assignment
        [⟨"p1", "e1", some "u1", none, none, "control", 1, some 5, some 10⟩]
        "p2" ⟨"e1", "treat", some "u1", none, none, 2⟩).1.filter
        (fun row : StoredRow =>
          decide (rowKey row = assignKey ⟨"e1", "treat", some "u1", none, none, 2⟩)) =
      [⟨"p1", "e1", some "u1", none, none, "treat", 2, some 5, some 10⟩] := by
  have hp : decide (rowKey (⟨"p1", "e1", some "u1", none, none, "control", 1, some 5, some 10⟩ : StoredRow) =
      assignKey ⟨"e1", "treat", some "u1", none, none, 2⟩) = true := decide_eq_true rfl
  have h := record_assignment_upsert
    [⟨"p1", "e1", some "u1", none, none, "control", 1, some 5, some 10⟩]
    "p2" ⟨"e1", "treat", some "u1", none, none, 2⟩
    ⟨"p1", "e1", some "u1", none, none, "control", 1, some 5, some 10⟩
    (by rw [List.filter_cons, if_pos hp, List.filter_nil])
  exact ⟨h.1, h.2.2.2.2.2.2.1⟩

/-- One successful conversion update against the single row matching the
participant id: the resulting table and RETURNING row, the updated row is
the only one for that id, other rows and the table size are unchanged. -/
theorem record_conversion_ok_step (tbl : List StoredRow) (u : ConversionUpdate)
    (r : StoredRow)
    (hone : tbl.filter (fun row => decide (row.id = u.participant_id)) = [r]) :
    record_conversion tbl u =
      .ok (tbl.map (fun row => if row.id = u.participant_id then { r with converted_at := some u.converted_at, conversion_value := u.conversion_value } else row),
           { r with converted_at := some u.converted_at, conversion_value := u.conversion_value }) ∧
    (tbl.map (fun row => if row.id = u.participant_id then { r with converted_at := some u.converted_at, conversion_value := u.conversion_value } else row)).filter
        (fun row => decide (row.id = u.participant_id)) =
      [{ r with converted_at := some u.converted_at, conversion_value := u.conversion_value }] ∧
    (tbl.map (fun row => if row.id = u.participant_id then { r with converted_at := some u.converted_at, conversion_value := u.conversion_value } else row)).filter
        (fun row => !decide (row.id = u.participant_id)) =
      tbl.filter (fun row => !decide (row.id = u.participant_id)) ∧
    (tbl.map (fun row => if row.id = u.participant_id then { r with converted_at := some u.converted_at, conversion_value := u.conversion_value } else row)).length =
      tbl.length := by
  have hfind : tbl.find? (fun row => decide (row.id = u.participant_id)) = some r := by
    rw [find?_decide_eq_head?_filter (fun row : StoredRow => row.id = u.participant_id), hone]
    rfl
  have hrmem : r ∈ tbl.filter (fun row => decide (row.id = u.participant_id)) := by
    rw [hone]; exact List.mem_singleton.mpr rfl
  have hrid : r.id = u.participant_id := by
    simpa using (List.mem_filter.mp hrmem).2
  have hu1 : ({ r with converted_at := some u.converted_at, conversion_value := u.conversion_value } : StoredRow).id = u.participant_id := hrid
  refine ⟨by simp only [record_conversion, hfind], ?_, ?_, by simp⟩
  · exact filter_map_replace (fun row : StoredRow => row.id = u.participant_id) _ r hu1 tbl hone
  · exact filter_not_map_replace (fun row : StoredRow => row.id = u.participant_id) _ hu1 tbl

/-- C7: recording a conversion for an unknown participant id fails with
the NotFound failure; recording twice against the single existing row
with that id succeeds both times and leaves a single row for the id whose
converted_at and conversion_value come from the latest call, with every
other field and every other row unchanged. -/
theorem record_conversion_notfound_and_idempotent
    (tbl : List StoredRow) (u u2 : ConversionUpdate) (r : StoredRow)
    (hsame : u2.participant_id = u.participant_id) :
    (tbl.filter (fun row => decide (row.id = u.participant_id)) = [] →
      record_conversion tbl u = .error ServiceFailure.notFoundError) ∧
    (tbl.filter (fun row => decide (row.id = u.participant_id)) = [r] →
      ∃ tbl1 rec1 tbl2 rec2,
        record_conversion tbl u = .ok (tbl1, rec1) ∧
        record_conversion tbl1 u2 = .ok (tbl2, rec2) ∧
        rec2 = { r with converted_at := some u2.converted_at,
                        conversion_value := u2.conversion_value } ∧
        tbl2.filter (fun row => decide (row.id = u.participant_id)) = [rec2] ∧
        tbl2.filter (fun row => !decide (row.id = u.participant_id)) =
          tbl.filter (fun row => !decide (row.id = u.participant_id)) ∧
        tbl2.length = tbl.length) := by
  constructor
  · intro hnone
    have hfind : tbl.find? (fun row => decide (row.id = u.participant_id)) = none := by
      rw [find?_decide_eq_head?_filter (fun row : StoredRow => row.id = u.participant_id), hnone]
      rfl
    simp [record_conversion, hfind]
  · intro hone
    obtain ⟨hstep1, hfilter1, hframe1, hlen1⟩ := record_conversion_ok_step tbl u r hone
    have hone2 : (tbl.map (fun row => if row.id = u.participant_id then { r with converted_at := some u.converted_at, conversion_value := u.conversion_value } else row)).filter
        (fun row => decide (row.id = u2.participant_id)) =
        [{ r with converted_at := some u.converted_at, conversion_value := u.conversion_value }] := by
      rw [hsame]; exact hfilter1
    obtain ⟨hstep2, hfilter2, hframe2, hlen2⟩ :=
      record_conversion_ok_step _ u2 _ hone2
    have hpred : (fun row : StoredRow => decide (row.id = u2.participant_id)) =
        (fun row : StoredRow => decide (row.id = u.participant_id)) := by rw [hsame]
    have hpredn : (fun row : StoredRow => !decide (row.id = u2.participant_id)) =
        (fun row : StoredRow => !decide (row.id = u.participant_id)) := by rw [hsame]
    refine ⟨_, _, _, _, hstep1, hstep2, rfl, ?_, ?_, by rw [hlen2]; exact hlen1⟩
    · rw [← hpred]; exact hfilter2
    · rw [← hpredn]
      rw [hframe2]
      rw [← hpredn] at hframe1
      exact hframe1

/-- Witness for C7 on a concrete one-row table and two updates. -/
theorem record_conversion_witness :
    (record_conversion
        ([] : List StoredRow) ⟨"missing", 9, none⟩ =
      .error ServiceFailure.notFoundError) ∧
    (∃ tbl1 rec1 tbl2 rec2,
      record_conversion
          [⟨"p1", "e1", some "u1", none, none, "control", 1, none, none⟩]
          ⟨"p1", 3, some 5⟩ = .ok (tbl1, rec1) ∧
      record_conversion tbl1 ⟨"p1", 4, some 7⟩ = .ok (tbl2, rec2) ∧
      rec2 = ⟨"p1", "e1", some "u1", none, none, "control", 1, some 4, some 7⟩ ∧
      tbl2.filter (fun row => decide (row.id = "p1")) = [rec2] ∧
      tbl2.filter (fun row => !decide (row.id = "p1")) =
        [(⟨"p1", "e1", some "u1", none, none, "control", 1, none, none⟩ : StoredRow)].filter
          (fun row => !decide (row.id = "p1")) ∧
      tbl2.length = 1) := by
  have ha := record_conversion_notfound_and_idempotent
    ([] : List StoredRow) ⟨"missing", 9, none⟩ ⟨"missing", 9, none⟩
    ⟨"x", "e", none, none, none, "v", 0, none, none⟩ rfl
  have hq : decide ((⟨"p1", "e1", some "u1", none, none, "control", 1, none, none⟩ : StoredRow).id = "p1") = true :=
    decide_eq_true rfl
  have hb := record_conversion_notfound_and_idempotent
    [⟨"p1", "e1", some "u1", none, none, "control", 1, none, none⟩]
    ⟨"p1", 3, some 5⟩ ⟨"p1", 4, some 7⟩
    ⟨"p1", "e1", some "u1", none, none, "control", 1, none, none⟩ rfl
  refine ⟨ha.1 rfl, ?_⟩
  obtain ⟨tbl1, rec1, tbl2, rec2, h1, h2, h3, h4, h5, h6⟩ :=
    hb.2 (by rw [List.filter_cons, if_pos hq, List.filter_nil])
  exact ⟨tbl1, rec1, tbl2, rec2, h1, h2, h3, h4, h5, h6⟩

/-! ## Claims C8 and C9: model validation -/

/-- C8: for a definition whose per-field pydantic constraints hold,
creation is accepted exactly when it has at least 2 variants, at least 1
success metric and an allocation sum in the closed interval from 0.99 to
1.01, and a ValidationError is raised exactly when it has fewer than 2
variants, fewer than 1 success metric, or an allocation sum farther than
0.01 from 1. -/
theorem validateDefinition_ok_iff (d : ExperimentDefinition)
    (ht : d.tenant_id ≠ "") (hn : d.name ≠ "") (hcb : d.created_by ≠ "")
    (hv : ∀ v ∈ d.variants, variantFieldsOk v)
    (hm : ∀ m ∈ d.success_metrics, metricFieldsOk m) :
    (validateDefinition d = .ok d ↔
      (2 ≤ d.variants.length ∧ 1 ≤ d.success_metrics.length ∧
        99 / 100 ≤ (d.variants.map (fun v => v.allocation)).sum ∧
        (d.variants.map (fun v => v.allocation)).sum ≤ 101 / 100)) ∧
    ((∃ e, validateDefinition d = .error e) ↔
      (d.variants.length < 2 ∨ d.success_metrics.length < 1 ∨
        1 / 100 < |(d.variants.map (fun v => v.allocation)).sum - 1|)) := by
  have habs : |(d.variants.map (fun v => v.allocation)).sum - 1| ≤ 1 / 100 ↔
      (99 / 100 ≤ (d.variants.map (fun v => v.allocation)).sum ∧
        (d.variants.map (fun v => v.allocation)).sum ≤ 101 / 100) := by
    rw [abs_le]
    constructor
    · rintro ⟨hlo, hhi⟩
      exact ⟨by linarith, by linarith⟩
    · rintro ⟨hlo, hhi⟩
      exact ⟨by linarith, by linarith⟩
  have hok : validateDefinition d = .ok d ↔
      (2 ≤ d.variants.length ∧ 1 ≤ d.success_metrics.length ∧
        99 / 100 ≤ (d.variants.map (fun v => v.allocation)).sum ∧
        (d.variants.map (fun v => v.allocation)).sum ≤ 101 / 100) := by
    unfold validateDefinition
    rw [if_neg ht, if_neg hn, if_neg (not_not_intro hv), if_neg (not_not_intro hm)]
    constructor
    · intro h
      split_ifs at h with h1 h2 h3
      exact ⟨by omega, by omega, (habs.mp (not_lt.mp h3)).1,
        (habs.mp (not_lt.mp h3)).2⟩
    · rintro ⟨ha, hb, hc, hd2⟩
      rw [if_neg (by omega), if_neg (by omega), if_neg hcb,
        if_neg (not_lt.mpr (habs.mpr ⟨hc, hd2⟩))]
  have hoe : validateDefinition d = .ok d ∨ ∃ e, validateDefinition d = .error e := by
    unfold validateDefinition
    split_ifs
    all_goals first
      | exact Or.inl rfl
      | exact Or.inr ⟨_, rfl⟩
  have herr : (∃ e, validateDefinition d = .error e) ↔
      ¬ (validateDefinition d = .ok d) := by
    constructor
    · rintro ⟨e, he⟩ hok2
      rw [hok2] at he
      exact Except.noConfusion he
    · intro hne
      rcases hoe with hok2 | herr2
      · exact absurd hok2 hne
      · exact herr2
  refine ⟨hok, ?_⟩
  rw [herr, hok]
  constructor
  · intro h
    by_cases h1 : d.variants.length < 2
    · exact Or.inl h1
    by_cases h2 : d.success_metrics.length < 1
    · exact Or.inr (Or.inl h2)
    by_cases h4 : 1 / 100 < |(d.variants.map (fun v => v.allocation)).sum - 1|
    · exact Or.inr (Or.inr h4)
    · exact absurd ⟨by omega, by omega, (habs.mp (not_lt.mp h4)).1,
        (habs.mp (not_lt.mp h4)).2⟩ h
  · rintro (h1 | h2 | h4) ⟨ha, hb, hc, hd2⟩
    · omega
    · omega
    · exact absurd h4 (not_lt.mpr (habs.mpr ⟨hc, hd2⟩))

/-- A concrete valid experiment definition with a Control/Treatment
split. -/
def demoDefinition : ExperimentDefinition :=
  { tenant_id := "t1"
    name := "Exp"
    description := none
    hypothesis := none
    variants := [⟨"c", "Control", 1/2, none, []⟩, ⟨"t", "Treatment", 1/2, none, []⟩]
    success_metrics := [⟨"conv", "increase", none, 1⟩]
    status := ExperimentStatus.draft
    created_by := "u1" }

/-- Witness for C8: the concrete definition is accepted. -/
theorem validateDefinition_witness :
    validateDefinition demoDefinition = .ok demoDefinition := by
  have h := validateDefinition_ok_iff demoDefinition (by simp [demoDefinition])
    (by simp [demoDefinition]) (by simp [demoDefinition])
    (by simp [demoDefinition, variantFieldsOk]
        norm_num)
    (by simp [demoDefinition, metricFieldsOk])
  have hsum : (demoDefinition.variants.map (fun v => v.allocation)).sum = 1 := by
    norm_num [demoDefinition]
  exact h.1.mpr ⟨by simp [demoDefinition], by simp [demoDefinition],
    by rw [hsum]; norm_num, by rw [hsum]; norm_num⟩

/-- C9 counterexample: an assignment whose user_id is set to the empty
string, with customer and session ids unset, is rejected by
validate_identity even though one identifier is set. -/
theorem validate_identity_counterexample :
    (⟨"e1", "v", some "", none, none, 0⟩ : ParticipantAssignment).user_id = some "" ∧
    validate_identity ⟨"e1", "v", some "", none, none, 0⟩ =
      .error "At least one participant identifier must be provided" := by
  exact ⟨rfl, by simp [validate_identity, optStrTruthy]⟩

/-- C9 amended: identity validation fails exactly when none of user_id,
customer_id, session_id is set to a nonempty string (an unset field and
an empty string both count as missing); when at least one of them is a
nonempty string the validation passes. -/
theorem validate_identity_amended (a : ParticipantAssignment) :
    (validate_identity a = .ok a ↔
      ((∃ s, a.user_id = some s ∧ s ≠ "") ∨ (∃ s, a.customer_id = some s ∧ s ≠ "") ∨
        (∃ s, a.session_id = some s ∧ s ≠ ""))) ∧
    (validate_identity a =
        .error "At least one participant identifier must be provided" ↔
      ¬ ((∃ s, a.user_id = some s ∧ s ≠ "") ∨ (∃ s, a.customer_id = some s ∧ s ≠ "") ∨
        (∃ s, a.session_id = some s ∧ s ≠ ""))) := by
  have htr : ∀ o : Option String, optStrTruthy o = true ↔ ∃ s, o = some s ∧ s ≠ "" := by
    intro o
    cases o with
    | none => simp [optStrTruthy]
    | some s => simp [optStrTruthy]
  have hcond : (optStrTruthy a.user_id = true ∨ optStrTruthy a.customer_id = true ∨
      optStrTruthy a.session_id = true) ↔
      ((∃ s, a.user_id = some s ∧ s ≠ "") ∨ (∃ s, a.customer_id = some s ∧ s ≠ "") ∨
        (∃ s, a.session_id = some s ∧ s ≠ "")) := by
    rw [htr, htr, htr]
  by_cases h : (optStrTruthy a.user_id = true ∨ optStrTruthy a.customer_id = true ∨
      optStrTruthy a.session_id = true)
  · constructor
    · exact iff_of_true (by simp [validate_identity, h]) (hcond.mp h)
    · refine iff_of_false ?_ (not_not_intro (hcond.mp h))
      simp [validate_identity, h]
  · constructor
    · refine iff_of_false ?_ (fun hx => h (hcond.mpr hx))
      simp [validate_identity, h]
    · exact iff_of_true (by simp [validate_identity, h]) (fun hx => h (hcond.mpr hx))

/-- Witness for C9 on an assignment carrying a nonempty user id. -/
theorem validate_identity_amended_witness :
    validate_identity ⟨"e1", "v", some "u9", none, none, 0⟩ =
      .ok ⟨"e1", "v", some "u9", none, none, 0⟩ :=
  (validate_identity_amended _).1.mpr (Or.inl ⟨"u9", rfl, by simp⟩)

/-! ## Statistics lemmas -/

theorem erf_zero : erf 0 = 0 := by
  simp [erf, intervalIntegral.integral_same]

theorem normal_cdf_zero : normal_cdf 0 = 1 / 2 := by
  rw [normal_cdf, zero_div, erf_zero]
  norm_num

theorem proportion_z_test_eq (pa ca pb cb : ℕ) (pooled se : ℝ)
    (hpa : pa ≠ 0) (hpb : pb ≠ 0)
    (hpool : pooled = ((ca : ℝ) + (cb : ℝ)) / ((pa : ℝ) + (pb : ℝ)))
    (hse : se = Real.sqrt (pooled * (1 - pooled) * (1 / (pa : ℝ) + 1 / (pb : ℝ))))
    (h0 : pooled ≠ 0) (h1 : pooled ≠ 1) (hsz : se ≠ 0) :
    proportion_z_test pa ca pb cb =
      some (max (min (2 * (1 - normal_cdf |((ca : ℝ) / (pa : ℝ) - (cb : ℝ) / (pb : ℝ)) / se|)) 1) 0) := by
  subst hpool
  subst hse
  simp only [proportion_z_test]
  rw [if_neg (not_or.mpr ⟨hpa, hpb⟩), if_neg (not_or.mpr ⟨h0, h1⟩), if_neg hsz]

theorem proportion_z_test_none (pa ca pb cb : ℕ) (pooled se : ℝ)
    (hpool : pooled = ((ca : ℝ) + (cb : ℝ)) / ((pa : ℝ) + (pb : ℝ)))
    (hse : se = Real.sqrt (pooled * (1 - pooled) * (1 / (pa : ℝ) + 1 / (pb : ℝ))))
    (hdeg : pa = 0 ∨ pb = 0 ∨ pooled = 0 ∨ pooled = 1 ∨ se = 0) :
    proportion_z_test pa ca pb cb = none := by
  subst hpool
  subst hse
  simp only [proportion_z_test]
  split_ifs with hA hB hC
  · rfl
  · rfl
  · rfl
  · rcases hdeg with h | h | h | h | h
    · exact absurd (Or.inl h) hA
    · exact absurd (Or.inr h) hA
    · exact absurd (Or.inl h) hB
    · exact absurd (Or.inr h) hB
    · exact absurd h hC

theorem proportion_z_test_bounds (pa ca pb cb : ℕ) (p : ℝ)
    (h : proportion_z_test pa ca pb cb = some p) : 0 ≤ p ∧ p ≤ 1 := by
  simp only [proportion_z_test] at h
  split_ifs at h
  have hp : max (min (2 * (1 - normal_cdf |((ca : ℝ) / (pa : ℝ) - (cb : ℝ) / (pb : ℝ)) / Real.sqrt (((ca : ℝ) + (cb : ℝ)) / ((pa : ℝ) + (pb : ℝ)) * (1 - ((ca : ℝ) + (cb : ℝ)) / ((pa : ℝ) + (pb : ℝ))) * (1 / (pa : ℝ) + 1 / (pb : ℝ)))|)) 1) 0 = p :=
    Option.some.inj h
  rw [← hp]
  constructor
  · exact le_max_right _ 0
  · exact max_le (min_le_right _ 1) zero_le_one

theorem mkComparison_baseline (b v : VariantResult) :
    (mkComparison b v).baseline = b.name := rfl

theorem mkComparison_variant (b v : VariantResult) :
    (mkComparison b v).variant = v.name := rfl

theorem mkComparison_lift (b v : VariantResult) :
    (mkComparison b v).lift = v.lift := rfl

theorem mkComparison_p_value (b v : VariantResult) :
    (mkComparison b v).p_value =
      proportion_z_test b.participants b.conversions v.participants v.conversions := rfl

theorem mkComparison_confidence (b v : VariantResult) :
    (mkComparison b v).confidence =
      (proportion_z_test b.participants b.conversions v.participants
        v.conversions).map (fun p => 1 - p) := rfl

theorem mkComparison_is_significant_none (b v : VariantResult)
    (h : proportion_z_test b.participants b.conversions v.participants
      v.conversions = none) :
    (mkComparison b v).is_significant = false := by
  simp [mkComparison, h]

theorem mkComparison_is_significant_iff (b v : VariantResult) (p : ℝ)
    (h : proportion_z_test b.participants b.conversions v.participants
      v.conversions = some p) :
    ((mkComparison b v).is_significant = true ↔ (0.95 : ℝ) ≤ 1 - p) := by
  have hsig : (mkComparison b v).is_significant =
      (if 1 - p = 0 then false else if (0.95 : ℝ) ≤ 1 - p then true else false) := by
    simp [mkComparison, h]
  rw [hsig]
  by_cases hz0 : 1 - p = 0
  · rw [if_pos hz0, hz0]
    constructor
    · intro hfalse
      exact absurd hfalse (by simp)
    · intro hge
      exact absurd hge (by norm_num)
  · rw [if_neg hz0]
    by_cases hge : (0.95 : ℝ) ≤ 1 - p
    · rw [if_pos hge]
      exact iff_of_true rfl hge
    · rw [if_neg hge]
      exact iff_of_false (by simp) hge

theorem build_comparisons_getElem (b : VariantResult) (rest : List VariantResult)
    (i : ℕ) :
    (build_comparisons (b :: rest))[i]? = (rest[i]?).map (mkComparison b) := by
  simp [build_comparisons]

/-! ## Claims C1 and C5: the two-proportion z-test -/

/-- C1: for a non-baseline variant compared against the baseline with
both participant counts positive, pooled proportion strictly between 0
and 1 and nonzero standard error, the comparison carries
p_value = 2 * (1 - normal_cdf of the absolute z-score) clamped to the
unit interval, with z the rate difference over the standard error,
normal_cdf the erf-based standard normal CDF, confidence = 1 - p_value,
and is_significant exactly when confidence is at least 0.95. -/
theorem comparison_z_test_formula
    (b : VariantResult) (rest : List VariantResult) (i : ℕ) (v : VariantResult)
    (pooled se z pv : ℝ)
    (hv : rest[i]? = some v)
    (hb : 0 < b.participants) (hvp : 0 < v.participants)
    (hpool : pooled = ((b.conversions : ℝ) + (v.conversions : ℝ)) /
      ((b.participants : ℝ) + (v.participants : ℝ)))
    (hse : se = Real.sqrt (pooled * (1 - pooled) *
      (1 / (b.participants : ℝ) + 1 / (v.participants : ℝ))))
    (hz : z = ((b.conversions : ℝ) / (b.participants : ℝ) -
      (v.conversions : ℝ) / (v.participants : ℝ)) / se)
    (hpv : pv = max (min (2 * (1 - normal_cdf |z|)) 1) 0)
    (h0 : 0 < pooled) (h1 : pooled < 1) (hsz : se ≠ 0) :
    (∀ x, normal_cdf x = 0.5 * (1 + erf (x / Real.sqrt 2))) ∧
    ∃ c, (build_comparisons (b :: rest))[i]? = some c ∧
      c.p_value = some pv ∧
      c.confidence = some (1 - pv) ∧
      (c.is_significant = true ↔ (0.95 : ℝ) ≤ 1 - pv) := by
  have hzt := proportion_z_test_eq b.participants b.conversions v.participants
    v.conversions pooled se hb.ne' hvp.ne' hpool hse h0.ne' h1.ne hsz
  refine ⟨fun x => rfl, mkComparison b v, ?_, ?_, ?_, ?_⟩
  · rw [build_comparisons_getElem, hv]
    rfl
  · rw [mkComparison_p_value, hzt, hpv, hz]
  · rw [mkComparison_confidence, hzt, hpv, hz]
    rfl
  · rw [hpv, hz]
    exact mkComparison_is_significant_iff b v _ (by rw [hzt])

/-- Witness for C1 at two variants with two participants and one
conversion each. -/
theorem comparison_z_test_formula_witness :
    (∀ x, normal_cdf x = 0.5 * (1 + erf (x / Real.sqrt 2))) ∧
    ∃ c, (build_comparisons
        [⟨"A", 2, 1, 0, 0, 0, none⟩, ⟨"B", 2, 1, 0, 0, 0, none⟩])[0]? = some c ∧
      c.p_value = some (max (min (2 * (1 - normal_cdf |(0 : ℝ)|)) 1) 0) ∧
      c.confidence = some (1 - max (min (2 * (1 - normal_cdf |(0 : ℝ)|)) 1) 0) ∧
      (c.is_significant = true ↔
        (0.95 : ℝ) ≤ 1 - max (min (2 * (1 - normal_cdf |(0 : ℝ)|)) 1) 0) := by
  have hsz : Real.sqrt (1 / 4) ≠ (0 : ℝ) :=
    Real.sqrt_ne_zero'.mpr (by norm_num)
  exact comparison_z_test_formula ⟨"A", 2, 1, 0, 0, 0, none⟩
    [⟨"B", 2, 1, 0, 0, 0, none⟩] 0 ⟨"B", 2, 1, 0, 0, 0, none⟩
    (1 / 2) (Real.sqrt (1 / 4)) 0
    (max (min (2 * (1 - normal_cdf |(0 : ℝ)|)) 1) 0)
    rfl (by norm_num) (by norm_num) (by norm_num) (by norm_num)
    (by norm_num) rfl
    (by norm_num) (by norm_num) hsz

/-- C5: a degenerate comparison input (a zero participant count on
either side, a pooled proportion of 0 or 1, or a zero standard error)
still yields a comparison row, carrying p_value None, confidence None
and is_significant false. -/
theorem comparison_degenerate_inconclusive
    (b : VariantResult) (rest : List VariantResult) (i : ℕ) (v : VariantResult)
    (pooled se : ℝ)
    (hv : rest[i]? = some v)
    (hpool : pooled = ((b.conversions : ℝ) + (v.conversions : ℝ)) /
      ((b.participants : ℝ) + (v.participants : ℝ)))
    (hse : se = Real.sqrt (pooled * (1 - pooled) *
      (1 / (b.participants : ℝ) + 1 / (v.participants : ℝ))))
    (hdeg : b.participants = 0 ∨ v.participants = 0 ∨ pooled = 0 ∨ pooled = 1 ∨
      se = 0) :
    ∃ c, (build_comparisons (b :: rest))[i]? = some c ∧
      c.p_value = none ∧ c.confidence = none ∧ c.is_significant = false := by
  have hzt := proportion_z_test_none b.participants b.conversions v.participants
    v.conversions pooled se hpool hse hdeg
  refine ⟨mkComparison b v, ?_, ?_, ?_, ?_⟩
  · rw [build_comparisons_getElem, hv]
    rfl
  · rw [mkComparison_p_value, hzt]
  · rw [mkComparison_confidence, hzt]
    rfl
  · exact mkComparison_is_significant_none b v hzt

/-- Witness for C5 at two variants with zero participants. -/
theorem comparison_degenerate_inconclusive_witness :
    ∃ c, (build_comparisons
        [⟨"A", 0, 0, 0, 0, 0, none⟩, ⟨"B", 0, 0, 0, 0, 0, none⟩])[0]? = some c ∧
      c.p_value = none ∧ c.confidence = none ∧ c.is_significant = false :=
  comparison_degenerate_inconclusive ⟨"A", 0, 0, 0, 0, 0, none⟩
    [⟨"B", 0, 0, 0, 0, 0, none⟩] 0 ⟨"B", 0, 0, 0, 0, 0, none⟩
    0 (Real.sqrt 0) rfl (by norm_num) (by norm_num) (Or.inl rfl)

/-! ## Lift-loop lemmas -/

/-- The per-result body of the lift loop, with the first result r0 fixed:
equal name keeps lift None, then the positive-baseline, positive-rate and
zero branches. -/
noncomputable def liftPatch (r0 r : VariantResult) : VariantResult :=
  if r.name = r0.name then { r with lift := none }
  else if 0 < r0.conversion_rate then
    { r with lift := some (((r.conversion_rate - r0.conversion_rate) / r0.conversion_rate : ℝ) : EReal) }
  else if 0 < r.conversion_rate then { r with lift := some ⊤ }
  else { r with lift := some ((0 : ℝ) : EReal) }

theorem assignLifts_cons (r0 : VariantResult) (rest : List VariantResult) :
    assignLifts (r0 :: rest) = (r0 :: rest).map (liftPatch r0) := rfl

theorem liftPatch_name (r0 r : VariantResult) : (liftPatch r0 r).name = r.name := by
  unfold liftPatch
  split_ifs <;> rfl

theorem liftPatch_participants (r0 r : VariantResult) :
    (liftPatch r0 r).participants = r.participants := by
  unfold liftPatch
  split_ifs <;> rfl

theorem liftPatch_conversions (r0 r : VariantResult) :
    (liftPatch r0 r).conversions = r.conversions := by
  unfold liftPatch
  split_ifs <;> rfl

theorem liftPatch_rate (r0 r : VariantResult) :
    (liftPatch r0 r).conversion_rate = r.conversion_rate := by
  unfold liftPatch
  split_ifs <;> rfl

theorem liftPatch_total (r0 r : VariantResult) :
    (liftPatch r0 r).total_conversion_value = r.total_conversion_value := by
  unfold liftPatch
  split_ifs <;> rfl

theorem liftPatch_avg (r0 r : VariantResult) :
    (liftPatch r0 r).avg_conversion_value = r.avg_conversion_value := by
  unfold liftPatch
  split_ifs <;> rfl

theorem assignLifts_getElem (r0 : VariantResult) (rest : List VariantResult) (i : ℕ) :
    (assignLifts (r0 :: rest))[i]? = ((r0 :: rest)[i]?).map (liftPatch r0) := by
  rw [assignLifts_cons]
  exact List.getElem?_map (liftPatch r0) (r0 :: rest) i

/-! ## Claim C4: lift assignment -/

/-- C4 counterexample: in a two-element result list whose second entry
shares the first entry's name, the baseline conversion rate is positive
yet the second entry's lift is None rather than the relative-lift
formula. -/
theorem assignLifts_counterexample :
    (0 : ℝ) < (⟨"A", 2, 1, 1/2, 0, 0, none⟩ : VariantResult).conversion_rate ∧
    (assignLifts [⟨"A", 2, 1, 1/2, 0, 0, none⟩, ⟨"A", 2, 1, 1/2, 0, 0, none⟩]).map
      (fun r => r.lift) = [none, none] := by
  constructor
  · norm_num
  · rw [assignLifts_cons]
    simp [liftPatch]

/-- C4 amended: the first result's lift is None, and so is the lift of
any later result whose name equals the first result's name; a later
result with a different name gets the relative-lift formula when the
baseline rate is positive, positive infinity when the baseline rate is
not positive but its own rate is, and zero otherwise. -/
theorem assignLifts_amended (r0 : VariantResult) (rest : List VariantResult)
    (i : ℕ) (v : VariantResult) (hv : rest[i]? = some v) :
    (∃ w0, (assignLifts (r0 :: rest))[0]? = some w0 ∧ w0.lift = none) ∧
    ∃ w, (assignLifts (r0 :: rest))[i + 1]? = some w ∧ w.name = v.name ∧
      (v.name = r0.name → w.lift = none) ∧
      (v.name ≠ r0.name → 0 < r0.conversion_rate →
        w.lift = some (((v.conversion_rate - r0.conversion_rate) / r0.conversion_rate : ℝ) : EReal)) ∧
      (v.name ≠ r0.name → ¬ 0 < r0.conversion_rate → 0 < v.conversion_rate →
        w.lift = some ⊤) ∧
      (v.name ≠ r0.name → ¬ 0 < r0.conversion_rate → ¬ 0 < v.conversion_rate →
        w.lift = some ((0 : ℝ) : EReal)) := by
  constructor
  · refine ⟨liftPatch r0 r0, ?_, ?_⟩
    · rw [assignLifts_getElem]
      simp
    · unfold liftPatch
      rw [if_pos rfl]
  · refine ⟨liftPatch r0 v, ?_, liftPatch_name r0 v, ?_, ?_, ?_, ?_⟩
    · rw [assignLifts_getElem]
      simp [hv]
    · intro hname
      unfold liftPatch
      rw [if_pos hname]
    · intro hname hrate
      unfold liftPatch
      rw [if_neg hname, if_pos hrate]
    · intro hname hrate hvr
      unfold liftPatch
      rw [if_neg hname, if_neg hrate, if_pos hvr]
    · intro hname hrate hvr
      unfold liftPatch
      rw [if_neg hname, if_neg hrate, if_neg hvr]

/-- Witness for C4 on two distinctly named results with positive
baseline rate. -/
theorem assignLifts_amended_witness :
    ∃ w, (assignLifts
        [⟨"A", 2, 1, 1/2, 0, 0, none⟩, ⟨"B", 4, 1, 1/4, 0, 0, none⟩])[1]? = some w ∧
      w.name = "B" ∧
      w.lift = some ((((1 : ℝ)/4 - 1/2) / (1/2) : ℝ) : EReal) := by
  obtain ⟨-, w, hw, hname, -, hf, -, -⟩ :=
    assignLifts_amended ⟨"A", 2, 1, 1/2, 0, 0, none⟩
      [⟨"B", 4, 1, 1/4, 0, 0, none⟩] 0 ⟨"B", 4, 1, 1/4, 0, 0, none⟩ rfl
  refine ⟨w, hw, hname, ?_⟩
  rw [hf (by simp) (by norm_num)]

/-! ## Aggregation lemmas -/

theorem foldl_applyRow_name (rows : List ParticipantRow) :
    ∀ (m : String → Option VariantAggregate),
      (∀ n a, m n = some a → a.name = n) →
      ∀ n a, (rows.foldl applyRow m) n = some a → a.name = n := by
  induction rows with
  | nil => intro m hm; exact hm
  | cons row rs ih =>
      intro m hm n a
      rw [List.foldl_cons]
      refine ih (applyRow m row) ?_ n a
      intro k b hk
      unfold applyRow at hk
      by_cases hkr : k = row.variant_name
      · rw [if_pos hkr] at hk
        rw [← Option.some.inj hk, hkr]
      · rw [if_neg hkr] at hk
        exact hm k b hk

theorem initAggregates_name (variants : List ExperimentVariant) :
    ∀ n a, initAggregates variants n = some a → a.name = n := by
  intro n a h
  unfold initAggregates at h
  split_ifs at h
  rw [← Option.some.inj h]

theorem aggregateRows_name (variants : List ExperimentVariant)
    (rows : List ParticipantRow) (n : String) (a : VariantAggregate)
    (h : aggregateRows variants rows n = some a) : a.name = n :=
  foldl_applyRow_name rows (initAggregates variants)
    (initAggregates_name variants) n a h

theorem foldl_applyRow_no_row (n : String) (rows : List ParticipantRow) :
    ∀ (m : String → Option VariantAggregate),
      (∀ row ∈ rows, row.variant_name ≠ n) → (rows.foldl applyRow m) n = m n := by
  induction rows with
  | nil => intro m _; rfl
  | cons row rs ih =>
      intro m hno
      rw [List.foldl_cons]
      rw [ih (applyRow m row) (fun q hq => hno q (List.mem_cons_of_mem row hq))]
      unfold applyRow
      rw [if_neg (show ¬ (n = row.variant_name) from
        fun he => hno row (List.mem_cons_self row rs) he.symm)]

theorem initAggregates_getD (variants : List ExperimentVariant) (n : String) :
    (initAggregates variants n).getD ⟨n, 0, 0, 0⟩ = ⟨n, 0, 0, 0⟩ := by
  unfold initAggregates
  split_ifs <;> rfl

theorem foldl_applyRow_filter_agree (names : List String)
    (rows : List ParticipantRow) :
    ∀ (m1 m2 : String → Option VariantAggregate),
      (∀ n, n ∈ names → m1 n = m2 n) →
      ∀ n, n ∈ names →
        ((rows.filter (fun row => decide (row.variant_name ∈ names))).foldl
          applyRow m1) n = (rows.foldl applyRow m2) n := by
  induction rows with
  | nil => intro m1 m2 h n hn; exact h n hn
  | cons row rs ih =>
      intro m1 m2 h n hn
      by_cases hrow : row.variant_name ∈ names
      · rw [List.filter_cons_of_pos (by simpa using hrow), List.foldl_cons,
          List.foldl_cons]
        refine ih (applyRow m1 row) (applyRow m2 row) ?_ n hn
        intro k hk
        unfold applyRow
        by_cases hk2 : k = row.variant_name
        · rw [if_pos hk2, if_pos hk2]
        · rw [if_neg hk2, if_neg hk2]
          exact h k hk
      · rw [List.filter_cons_of_neg (by simpa using hrow), List.foldl_cons]
        refine ih m1 (applyRow m2 row) ?_ n hn
        intro k hk
        unfold applyRow
        rw [if_neg (show ¬ (k = row.variant_name) from fun he => hrow (he ▸ hk))]
        exact h k hk

theorem assignLifts_length (l : List VariantResult) :
    (assignLifts l).length = l.length := by
  cases l with
  | nil => rfl
  | cons r0 rest =>
      rw [assignLifts_cons]
      exact List.length_map _ _

theorem orderedResults_getElem (variants : List ExperimentVariant)
    (rows : List ParticipantRow) (i : ℕ) (dv : ExperimentVariant)
    (h : variants[i]? = some dv) :
    (orderedResults variants rows)[i]? =
      some (mkVariantResult
        ((aggregateRows variants rows dv.name).getD ⟨dv.name, 0, 0, 0⟩)) := by
  unfold orderedResults
  rw [List.getElem?_map, h]
  rfl

/-! ## Claim C10: shape of the variant-results list -/

/-- C10: the variant-results list has exactly one entry per defined
variant, in definition order, bearing the variant's name; a variant with
no matching aggregate row gets zero participants, conversions and total
value; and aggregate rows whose variant_name matches no defined variant
change neither the results nor the comparisons. -/
theorem build_variant_results_shape (variants : List ExperimentVariant)
    (rows : List ParticipantRow) :
    (build_variant_results variants rows).length = variants.length ∧
    (∀ (i : ℕ) (dv : ExperimentVariant), variants[i]? = some dv →
      ∃ r : VariantResult, (build_variant_results variants rows)[i]? = some r ∧
        r.name = dv.name) ∧
    (∀ (i : ℕ) (dv : ExperimentVariant), variants[i]? = some dv →
      (∀ row ∈ rows, row.variant_name ≠ dv.name) →
      ∃ r : VariantResult, (build_variant_results variants rows)[i]? = some r ∧
        r.name = dv.name ∧ r.participants = 0 ∧ r.conversions = 0 ∧
        r.total_conversion_value = 0) ∧
    build_variant_results variants
        (rows.filter (fun row =>
          decide (row.variant_name ∈ variants.map (fun v => v.name)))) =
      build_variant_results variants rows ∧
    build_comparisons (build_variant_results variants
        (rows.filter (fun row =>
          decide (row.variant_name ∈ variants.map (fun v => v.name))))) =
      build_comparisons (build_variant_results variants rows) := by
  have hgetname : ∀ n, ((aggregateRows variants rows n).getD ⟨n, 0, 0, 0⟩).name = n := by
    intro n
    cases hq : aggregateRows variants rows n with
    | none => rfl
    | some a =>
        rw [Option.getD_some]
        exact aggregateRows_name variants rows n a hq
  have hordlen : (orderedResults variants rows).length = variants.length := by
    unfold orderedResults
    exact List.length_map _ _
  have hframe : build_variant_results variants
      (rows.filter (fun row =>
        decide (row.variant_name ∈ variants.map (fun v => v.name)))) =
      build_variant_results variants rows := by
    unfold build_variant_results
    congr 1
    unfold orderedResults
    refine List.map_congr_left ?_
    intro v hvmem
    have hvn : v.name ∈ variants.map (fun v => v.name) :=
      List.mem_map.mpr ⟨v, hvmem, rfl⟩
    have := foldl_applyRow_filter_agree (variants.map (fun v => v.name)) rows
      (initAggregates variants) (initAggregates variants) (fun _ _ => rfl)
      v.name hvn
    unfold aggregateRows
    rw [this]
  refine ⟨?_, ?_, ?_, hframe, by rw [hframe]⟩
  · unfold build_variant_results
    rw [assignLifts_length, hordlen]
  · intro i dv hdv
    cases hres : orderedResults variants rows with
    | nil =>
        have hx := orderedResults_getElem variants rows i dv hdv
        rw [hres] at hx
        simp at hx
    | cons r0 rest =>
        have hioget := orderedResults_getElem variants rows i dv hdv
        rw [hres] at hioget
        refine ⟨liftPatch r0 (mkVariantResult
          ((aggregateRows variants rows dv.name).getD ⟨dv.name, 0, 0, 0⟩)), ?_, ?_⟩
        · unfold build_variant_results
          rw [hres, assignLifts_getElem, hioget]
          rfl
        · rw [liftPatch_name]
          exact hgetname dv.name
  · intro i dv hdv hno
    have hagg : aggregateRows variants rows dv.name =
        initAggregates variants dv.name :=
      foldl_applyRow_no_row dv.name rows (initAggregates variants) hno
    have hzero : (aggregateRows variants rows dv.name).getD ⟨dv.name, 0, 0, 0⟩ =
        ⟨dv.name, 0, 0, 0⟩ := by
      rw [hagg]
      exact initAggregates_getD variants dv.name
    cases hres : orderedResults variants rows with
    | nil =>
        have hx := orderedResults_getElem variants rows i dv hdv
        rw [hres] at hx
        simp at hx
    | cons r0 rest =>
        have hioget := orderedResults_getElem variants rows i dv hdv
        rw [hres] at hioget
        refine ⟨liftPatch r0 (mkVariantResult
          ((aggregateRows variants rows dv.name).getD ⟨dv.name, 0, 0, 0⟩)), ?_, ?_, ?_, ?_, ?_⟩
        · unfold build_variant_results
          rw [hres, assignLifts_getElem, hioget]
          rfl
        · rw [liftPatch_name]
          exact hgetname dv.name
        · rw [liftPatch_participants, hzero]
          rfl
        · rw [liftPatch_conversions, hzero]
          rfl
        · rw [liftPatch_total, hzero]
          rfl

/-- Witness for C10 on two variants, one matching row and one row whose
variant name matches no defined variant. -/
theorem build_variant_results_shape_witness :
    (build_variant_results [⟨"a", "A", 1, none, []⟩, ⟨"b", "B", 1, none, []⟩]
      [⟨"A", 2, 1, 0⟩, ⟨"Z", 9, 9, 0⟩]).length = 2 ∧
    (∃ r, (build_variant_results [⟨"a", "A", 1, none, []⟩, ⟨"b", "B", 1, none, []⟩]
        [⟨"A", 2, 1, 0⟩, ⟨"Z", 9, 9, 0⟩])[1]? = some r ∧
      r.name = "B" ∧ r.participants = 0 ∧ r.conversions = 0 ∧
      r.total_conversion_value = 0) ∧
    build_variant_results [⟨"a", "A", 1, none, []⟩, ⟨"b", "B", 1, none, []⟩]
        ([⟨"A", 2, 1, 0⟩, ⟨"Z", 9, 9, 0⟩].filter (fun row =>
          decide (row.variant_name ∈
            ([⟨"a", "A", 1, none, []⟩, ⟨"b", "B", 1, none, []⟩] :
              List ExperimentVariant).map (fun v => v.name)))) =
      build_variant_results [⟨"a", "A", 1, none, []⟩, ⟨"b", "B", 1, none, []⟩]
        [⟨"A", 2, 1, 0⟩, ⟨"Z", 9, 9, 0⟩] := by
  have h := build_variant_results_shape
    [⟨"a", "A", 1, none, []⟩, ⟨"b", "B", 1, none, []⟩]
    [⟨"A", 2, 1, 0⟩, ⟨"Z", 9, 9, 0⟩]
  obtain ⟨r, hr, hrn, hrp, hrc, hrt⟩ := h.2.2.1 1 ⟨"b", "B", 1, none, []⟩ rfl
    (by intro row hrow
        rcases List.mem_cons.mp hrow with rfl | hrow2
        · simp
        · rcases List.mem_cons.mp hrow2 with rfl | hrow3
          · simp
          · simp at hrow3)
  exact ⟨h.1, ⟨r, hr, hrn, hrp, hrc, hrt⟩, h.2.2.2.1⟩

/-! ## Suggested-winner lemmas -/

theorem detail_comparisons (variants : List ExperimentVariant)
    (rows : List ParticipantRow) :
    (getDetailResults variants rows).comparisons =
      build_comparisons (build_variant_results variants rows) := rfl

theorem detail_variants (variants : List ExperimentVariant)
    (rows : List ParticipantRow) :
    (getDetailResults variants rows).variants =
      build_variant_results variants rows := rfl

theorem detail_suggested (variants : List ExperimentVariant)
    (rows : List ParticipantRow) :
    (getDetailResults variants rows).suggested_winner =
      ((build_comparisons (build_variant_results variants rows)).find?
        winnerCond).map (fun c => c.variant) := rfl

theorem detail_overall (variants : List ExperimentVariant)
    (rows : List ParticipantRow) :
    (getDetailResults variants rows).overall_confidence =
      overallConfidence (build_comparisons (build_variant_results variants rows)) :=
  rfl

theorem winnerCond_iff (c : VariantComparison) :
    winnerCond c = true ↔
      (c.is_significant = true ∧ ∃ x, c.lift = some x ∧ 0 < x) := by
  unfold winnerCond
  cases hl : c.lift with
  | none =>
      constructor
      · intro h
        simp at h
      · rintro ⟨-, x, hx, -⟩
        exact Option.noConfusion hx
  | some x =>
      rw [Bool.and_eq_true]
      change c.is_significant = true ∧
        (if x = 0 then false else if 0 < x then true else false) = true ↔ _
      by_cases hx0 : x = 0
      · rw [if_pos hx0]
        constructor
        · rintro ⟨-, h⟩
          exact Bool.noConfusion h
        · rintro ⟨-, y, hy, hypos⟩
          rw [← Option.some.inj hy, hx0] at hypos
          exact absurd hypos (lt_irrefl 0)
      · rw [if_neg hx0]
        by_cases hxpos : (0 : EReal) < x
        · rw [if_pos hxpos]
          constructor
          · rintro ⟨hsig, -⟩
            exact ⟨hsig, x, rfl, hxpos⟩
          · rintro ⟨hsig, -⟩
            exact ⟨hsig, rfl⟩
        · rw [if_neg hxpos]
          constructor
          · rintro ⟨-, h⟩
            exact Bool.noConfusion h
          · rintro ⟨-, y, hy, hypos⟩
            rw [← Option.some.inj hy] at hypos
            exact absurd hypos hxpos

theorem find?_of_first (p : α → Bool) :
    ∀ (l : List α) (i : ℕ) (c : α), l[i]? = some c → p c = true →
      (∀ (j : ℕ) (cj : α), j < i → l[j]? = some cj → p cj = false) →
      l.find? p = some c := by
  intro l
  induction l with
  | nil =>
      intro i c hc
      simp at hc
  | cons x xs ih =>
      intro i c hc hp hfirst
      cases i with
      | zero =>
          have hx : x = c := by simpa using hc
          subst hx
          exact List.find?_cons_of_pos xs hp
      | succ n =>
          have hx : p x = false := hfirst 0 x (Nat.succ_pos n) (by simp)
          rw [List.find?_cons_of_neg xs (by simp [hx])]
          exact ih n c (by simpa using hc) hp
            (fun j cj hj hcj => hfirst (j + 1) cj (by omega) (by simpa using hcj))

/-! ## Claim C3: suggested winner -/

/-- C3: suggested_winner is None when no comparison is significant with
positive lift, and otherwise is the name of the variant result, in
definition order with the baseline excluded, belonging to the first
comparison that is significant with positive lift. -/
theorem suggested_winner_spec (variants : List ExperimentVariant)
    (rows : List ParticipantRow) :
    ((∀ c ∈ (getDetailResults variants rows).comparisons,
        ¬ (c.is_significant = true ∧ ∃ x, c.lift = some x ∧ 0 < x)) →
      (getDetailResults variants rows).suggested_winner = none) ∧
    (∀ (i : ℕ) (c : VariantComparison),
      (getDetailResults variants rows).comparisons[i]? = some c →
      (c.is_significant = true ∧ ∃ x, c.lift = some x ∧ 0 < x) →
      (∀ (j : ℕ) (cj : VariantComparison), j < i →
        (getDetailResults variants rows).comparisons[j]? = some cj →
        ¬ (cj.is_significant = true ∧ ∃ x, cj.lift = some x ∧ 0 < x)) →
      ∃ r : VariantResult,
        (getDetailResults variants rows).variants[i + 1]? = some r ∧
        (getDetailResults variants rows).suggested_winner = some r.name) := by
  constructor
  · intro hnone
    rw [detail_suggested]
    have hfind : (build_comparisons (build_variant_results variants rows)).find?
        winnerCond = none := by
      rw [List.find?_eq_none]
      intro c hc hw
      exact hnone c (by rw [detail_comparisons]; exact hc) ((winnerCond_iff c).mp hw)
    rw [hfind]
    rfl
  · intro i c hc hcond hfirst
    rw [detail_comparisons] at hc
    cases hres : build_variant_results variants rows with
    | nil =>
        rw [hres] at hc
        simp [build_comparisons] at hc
    | cons b rest =>
        rw [hres, build_comparisons_getElem] at hc
        obtain ⟨v, hvi, hvc⟩ := Option.map_eq_some'.mp hc
        refine ⟨v, ?_, ?_⟩
        · rw [detail_variants, hres]
          simpa using hvi
        · rw [detail_suggested]
          have hfind : (build_comparisons (build_variant_results variants rows)).find?
              winnerCond = some c := by
            refine find?_of_first winnerCond _ i c ?_ ((winnerCond_iff c).mpr hcond) ?_
            · rw [hres, build_comparisons_getElem, hvi]
              rw [← hvc]
              rfl
            · intro j cj hj hcj
              have hne := hfirst j cj hj (by rw [detail_comparisons]; exact hcj)
              cases hwc : winnerCond cj
              · rfl
              · exact absurd ((winnerCond_iff cj).mp hwc) hne
          rw [hfind, ← hvc]
          exact congrArg some (mkComparison_variant b v)

/-- Witness for C3: an empty experiment has no comparisons and no
suggested winner. -/
theorem suggested_winner_spec_witness :
    (getDetailResults [] []).suggested_winner = none := by
  have hemp : (getDetailResults ([] : List ExperimentVariant)
      ([] : List ParticipantRow)).comparisons = [] := rfl
  exact (suggested_winner_spec [] []).1
    (fun c hc => absurd (hemp ▸ hc) (List.not_mem_nil c))

/-! ## Maximum-fold lemmas for overall confidence -/

theorem le_foldl_max (l : List ℝ) (v : ℝ) : v ≤ l.foldl max v := by
  induction l generalizing v with
  | nil => exact le_rfl
  | cons x xs ih =>
      rw [List.foldl_cons]
      exact le_trans (le_max_left v x) (ih (max v x))

theorem mem_le_foldl_max (l : List ℝ) : ∀ (v x : ℝ), x ∈ l → x ≤ l.foldl max v := by
  induction l with
  | nil =>
      intro v x hx
      exact absurd hx (List.not_mem_nil x)
  | cons y ys ih =>
      intro v x hx
      rw [List.foldl_cons]
      rcases List.mem_cons.mp hx with rfl | hmem
      · exact le_trans (le_max_right v x) (le_foldl_max ys (max v x))
      · exact ih (max v y) x hmem

theorem foldl_max_cases (l : List ℝ) : ∀ v : ℝ, l.foldl max v = v ∨ l.foldl max v ∈ l := by
  induction l with
  | nil =>
      intro v
      exact Or.inl rfl
  | cons x xs ih =>
      intro v
      rw [List.foldl_cons]
      rcases ih (max v x) with h | h
      · rcases max_choice v x with hm | hm
        · exact Or.inl (by rw [h, hm])
        · exact Or.inr (by rw [h, hm]; exact List.mem_cons_self x xs)
      · exact Or.inr (List.mem_cons_of_mem x h)

theorem detail_confidence_nonneg (variants : List ExperimentVariant)
    (rows : List ParticipantRow) (c : VariantComparison)
    (hc : c ∈ (getDetailResults variants rows).comparisons) :
    c.confidence = none ∨ ∃ x, c.confidence = some x ∧ 0 ≤ x ∧ x ≤ 1 := by
  rw [detail_comparisons] at hc
  cases hl : build_variant_results variants rows with
  | nil =>
      rw [hl] at hc
      simp [build_comparisons] at hc
  | cons b rest =>
      rw [hl] at hc
      have hc2 : c ∈ rest.map (mkComparison b) := hc
      obtain ⟨v, hv, rfl⟩ := List.mem_map.mp hc2
      rw [mkComparison_confidence]
      cases hz : proportion_z_test b.participants b.conversions v.participants
        v.conversions with
      | none => exact Or.inl rfl
      | some p =>
          obtain ⟨h0, h1⟩ := proportion_z_test_bounds _ _ _ _ p hz
          exact Or.inr ⟨1 - p, rfl, by linarith, by linarith⟩

/-! ## Claim C2: overall confidence -/

/-- C2 amended: overall_confidence is None exactly when there are no
comparisons or every comparison's confidence is undefined or zero; when
some comparison has a defined positive confidence, overall_confidence is
the maximal defined confidence, attained by one of the comparisons. -/
theorem overall_confidence_amended (variants : List ExperimentVariant)
    (rows : List ParticipantRow) :
    ((getDetailResults variants rows).overall_confidence = none ↔
      ((getDetailResults variants rows).comparisons = [] ∨
        ∀ c ∈ (getDetailResults variants rows).comparisons,
          c.confidence = none ∨ c.confidence = some 0)) ∧
    (∀ c ∈ (getDetailResults variants rows).comparisons,
      ∀ x : ℝ, c.confidence = some x → 0 < x →
      ∃ y : ℝ, (getDetailResults variants rows).overall_confidence = some y ∧
        (∃ c2 ∈ (getDetailResults variants rows).comparisons,
          c2.confidence = some y) ∧
        (∀ c3 ∈ (getDetailResults variants rows).comparisons,
          ∀ w : ℝ, c3.confidence = some w → w ≤ y)) := by
  have hoc : (getDetailResults variants rows).overall_confidence =
      overallConfidence ((getDetailResults variants rows).comparisons) := rfl
  cases hcm : (getDetailResults variants rows).comparisons with
  | nil =>
      constructor
      · rw [hoc, hcm]
        exact iff_of_true rfl (Or.inl rfl)
      · intro c hcmem
        exact absurd hcmem (List.not_mem_nil c)
  | cons c cs =>
      have hov : (getDetailResults variants rows).overall_confidence =
          (if ((cs.map (fun d => d.confidence.getD 0)).foldl max
              (c.confidence.getD 0)) = 0 then none
            else some ((cs.map (fun d => d.confidence.getD 0)).foldl max
              (c.confidence.getD 0))) := by
        rw [hoc, hcm]
        rfl
      have hub : ∀ d ∈ c :: cs, d.confidence.getD 0 ≤
          (cs.map (fun d => d.confidence.getD 0)).foldl max (c.confidence.getD 0) := by
        intro d hd
        rcases List.mem_cons.mp hd with rfl | hmem
        · exact le_foldl_max _ _
        · exact mem_le_foldl_max _ _ _ (List.mem_map.mpr ⟨d, hmem, rfl⟩)
      have hattain : ∃ d ∈ c :: cs, d.confidence.getD 0 =
          (cs.map (fun d => d.confidence.getD 0)).foldl max (c.confidence.getD 0) := by
        rcases foldl_max_cases (cs.map fun d => d.confidence.getD 0)
          (c.confidence.getD 0) with h | h
        · exact ⟨c, List.mem_cons_self c cs, h.symm⟩
        · obtain ⟨d, hdmem, hfd⟩ := List.mem_map.mp h
          exact ⟨d, List.mem_cons_of_mem c hdmem, hfd⟩
      have hnn : ∀ d ∈ c :: cs, 0 ≤ d.confidence.getD 0 := by
        intro d hd
        rcases detail_confidence_nonneg variants rows d
          (by rw [hcm]; exact hd) with hnone | ⟨x, hx, hx0, -⟩
        · simp [hnone]
        · rw [hx]
          simpa using hx0
      constructor
      · constructor
        · intro hnone2
          refine Or.inr ?_
          intro d hd
          have hm0 : (cs.map (fun d => d.confidence.getD 0)).foldl max
              (c.confidence.getD 0) = 0 := by
            by_contra hne
            rw [hov, if_neg hne] at hnone2
            exact Option.noConfusion hnone2
          have h1 : d.confidence.getD 0 ≤ 0 := le_of_le_of_eq (hub d hd) hm0
          have h3 : d.confidence.getD 0 = 0 := le_antisymm h1 (hnn d hd)
          cases hdc : d.confidence with
          | none => exact Or.inl rfl
          | some x =>
              rw [hdc] at h3
              have hx0 : x = 0 := by simpa using h3
              exact Or.inr (by rw [hx0])
        · intro hall
          rcases hall with hempty | hall2
          · exact absurd hempty (by simp)
          · have hm0 : (cs.map (fun d => d.confidence.getD 0)).foldl max
                (c.confidence.getD 0) = 0 := by
              obtain ⟨d, hdmem, hdm⟩ := hattain
              have hd0 : d.confidence.getD 0 = 0 := by
                rcases hall2 d hdmem with hnone | hsome0
                · simp [hnone]
                · simp [hsome0]
              rw [← hdm, hd0]
            rw [hov, if_pos hm0]
      · intro d hd x hx hxpos
        have hxm : x ≤ (cs.map (fun d => d.confidence.getD 0)).foldl max
            (c.confidence.getD 0) := by
          have h5 := hub d hd
          rw [hx] at h5
          simpa using h5
        have hmpos : 0 < (cs.map (fun d => d.confidence.getD 0)).foldl max
            (c.confidence.getD 0) := lt_of_lt_of_le hxpos hxm
        refine ⟨_, by rw [hov, if_neg (ne_of_gt hmpos)], ?_, ?_⟩
        · obtain ⟨d2, hd2mem, hd2m⟩ := hattain
          refine ⟨d2, hd2mem, ?_⟩
          cases hdc : d2.confidence with
          | none =>
              rw [hdc] at hd2m
              simp at hd2m
              exact absurd hmpos (by rw [← hd2m]; exact lt_irrefl 0)
          | some w =>
              rw [hdc] at hd2m
              simp at hd2m
              rw [hd2m]
        · intro c3 hc3 w hw
          have h6 := hub c3 hc3
          rw [hw] at h6
          simpa using h6

/-- C2 counterexample: with two variants at identical 1-of-2 conversion
rates the single comparison has the defined confidence 0, yet
overall_confidence is None rather than that maximal defined value. -/
theorem overall_confidence_counterexample :
    ((getDetailResults [⟨"a", "A", 1, none, []⟩, ⟨"b", "B", 1, none, []⟩]
        [⟨"A", 2, 1, 0⟩, ⟨"B", 2, 1, 0⟩]).comparisons.map
      (fun c => c.confidence)) = [some 0] ∧
    (getDetailResults [⟨"a", "A", 1, none, []⟩, ⟨"b", "B", 1, none, []⟩]
        [⟨"A", 2, 1, 0⟩, ⟨"B", 2, 1, 0⟩]).overall_confidence = none := by
  have hzt : proportion_z_test 2 1 2 1 = some 1 := by
    rw [proportion_z_test_eq 2 1 2 1 (1/2) (Real.sqrt (1/4)) (by norm_num)
      (by norm_num) (by norm_num) (by norm_num) (by norm_num) (by norm_num)
      (Real.sqrt_ne_zero'.mpr (by norm_num))]
    norm_num [normal_cdf_zero]
  have hoA : aggregateRows [⟨"a", "A", 1, none, []⟩, ⟨"b", "B", 1, none, []⟩]
      [⟨"A", 2, 1, 0⟩, ⟨"B", 2, 1, 0⟩] "A" = some ⟨"A", 2, 1, 0⟩ := by
    simp [aggregateRows, applyRow]
  have hoB : aggregateRows [⟨"a", "A", 1, none, []⟩, ⟨"b", "B", 1, none, []⟩]
      [⟨"A", 2, 1, 0⟩, ⟨"B", 2, 1, 0⟩] "B" = some ⟨"B", 2, 1, 0⟩ := by
    simp [aggregateRows, applyRow]
  have hres : build_variant_results
      [⟨"a", "A", 1, none, []⟩, ⟨"b", "B", 1, none, []⟩]
      [⟨"A", 2, 1, 0⟩, ⟨"B", 2, 1, 0⟩] =
      assignLifts [mkVariantResult ⟨"A", 2, 1, 0⟩, mkVariantResult ⟨"B", 2, 1, 0⟩] := by
    have hord : orderedResults [⟨"a", "A", 1, none, []⟩, ⟨"b", "B", 1, none, []⟩]
        [⟨"A", 2, 1, 0⟩, ⟨"B", 2, 1, 0⟩] =
        [mkVariantResult ⟨"A", 2, 1, 0⟩, mkVariantResult ⟨"B", 2, 1, 0⟩] := by
      unfold orderedResults
      simp [hoA, hoB]
    unfold build_variant_results
    rw [hord]
  have hcomp : (getDetailResults [⟨"a", "A", 1, none, []⟩, ⟨"b", "B", 1, none, []⟩]
      [⟨"A", 2, 1, 0⟩, ⟨"B", 2, 1, 0⟩]).comparisons =
      [mkComparison
        (liftPatch (mkVariantResult ⟨"A", 2, 1, 0⟩) (mkVariantResult ⟨"A", 2, 1, 0⟩))
        (liftPatch (mkVariantResult ⟨"A", 2, 1, 0⟩) (mkVariantResult ⟨"B", 2, 1, 0⟩))] := by
    rw [detail_comparisons, hres, assignLifts_cons]
    rfl
  have hconf : (mkComparison
      (liftPatch (mkVariantResult ⟨"A", 2, 1, 0⟩) (mkVariantResult ⟨"A", 2, 1, 0⟩))
      (liftPatch (mkVariantResult ⟨"A", 2, 1, 0⟩)
        (mkVariantResult ⟨"B", 2, 1, 0⟩))).confidence = some 0 := by
    rw [mkComparison_confidence, liftPatch_participants, liftPatch_conversions,
      liftPatch_participants, liftPatch_conversions]
    show (proportion_z_test 2 1 2 1).map (fun p => 1 - p) = some 0
    rw [hzt]
    simp
  constructor
  · rw [hcomp]
    simp [hconf]
  · have hoc2 : (getDetailResults [⟨"a", "A", 1, none, []⟩, ⟨"b", "B", 1, none, []⟩]
        [⟨"A", 2, 1, 0⟩, ⟨"B", 2, 1, 0⟩]).overall_confidence =
        overallConfidence ((getDetailResults
          [⟨"a", "A", 1, none, []⟩, ⟨"b", "B", 1, none, []⟩]
          [⟨"A", 2, 1, 0⟩, ⟨"B", 2, 1, 0⟩]).comparisons) := rfl
    rw [hoc2, hcomp]
    simp [overallConfidence, hconf]

/-- Witness for C2: an empty experiment yields overall_confidence None. -/
theorem overall_confidence_amended_witness :
    (getDetailResults [] []).overall_confidence = none :=
  (overall_confidence_amended [] []).1.mpr (Or.inl rfl)

end ABTesting
